import Mathlib

/-!
Verification development for the mib-parser repository (src/src/parser.rs).

The Rust source is shallowly embedded here: strings are modelled as
`List Char`, `u64` values as `Nat` with explicit `2 ^ 64` overflow checks,
fallible computations as `Except`, and Rust panics as `Option.none` where the
code can index out of bounds.  The pest-generated parse tree is modelled as a
rose tree of rule-tagged nodes, and the `pest_consume` reducer methods of
`impl MibParser` are embedded one Lean definition per method.
-/

namespace MibP

/-- The double-quote character, written via its code point. -/
def dquote : Char := Char.ofNat 34

/-- The single-quote delimiter of radix literals, written via its code point. -/
def tick : Char := Char.ofNat 39

/-! ## Quoted-string normalization (parser.rs, `inner_string`, lines 119-129)

`inner_string` first runs `raw.replace("\"\"", "\"")` and then replaces every
match of the regex `[ \t]*\r?\n[ \t]*` by a single `"\n"`. -/

/-- Model of `str::replace("\"\"", "\"")`: leftmost, non-overlapping
replacement of each pair of consecutive double quotes by a single one. -/
def collapseDoubledQuotes : List Char → List Char
  | c1 :: c2 :: rest =>
    if c1 = dquote ∧ c2 = dquote then dquote :: collapseDoubledQuotes rest
    else c1 :: collapseDoubledQuotes (c2 :: rest)
  | l => l

/-- Horizontal whitespace, the regex character class `[ \t]`. -/
def isHWS (c : Char) : Bool := c = ' ' || c = '\t'

/-- Drop leading horizontal whitespace (the greedy `[ \t]*`). -/
def dropHWS (l : List Char) : List Char := l.dropWhile isHWS

/-- Try to match the regex `[ \t]*\r?\n[ \t]*` at the head of `l`; on success
return the remainder after the (leftmost-longest) match. -/
def matchBreak (l : List Char) : Option (List Char) :=
  match dropHWS l with
  | '\r' :: '\n' :: rest => some (dropHWS rest)
  | '\n' :: rest => some (dropHWS rest)
  | _ => none

/-- One scan of `Regex::replace_all` for the regex `[ \t]*\r?\n[ \t]*`,
replacing every match by `rep`.  The fuel argument bounds the recursion; every
successful match consumes at least the line-feed character, so fuel equal to
the length of the list is always sufficient. -/
def squelchF (rep : List Char) : Nat → List Char → List Char
  | 0, l => l
  | _ + 1, [] => []
  | fuel + 1, c :: rest =>
    match matchBreak (c :: rest) with
    | some r => rep ++ squelchF rep fuel r
    | none => c :: squelchF rep fuel rest

/-- Model of `Regex::replace_all` of `[ \t]*\r?\n[ \t]*` by the replacement `rep`. -/
def squelchWith (rep : List Char) (l : List Char) : List Char :=
  squelchF rep l.length l

/-- The replacement used in `inner_string` (line 128): a single line feed. -/
def squelchBreaks (l : List Char) : List Char := squelchWith ['\n'] l

/-- parser.rs, `inner_string` (lines 119-129), as a function of the node's
matched text: collapse doubled quotes, then squelch whitespace-wrapped
newlines. -/
def decodeInnerText (raw : List Char) : List Char :=
  squelchBreaks (collapseDoubledQuotes raw)

/-! ## Radix parsing (parser.rs, `number_string`/`hex_string`/`binary_string`)

`number_string` calls `str::parse::<u64>` (= `u64::from_str_radix(s, 10)`),
`hex_string` and `binary_string` slice off the delimiters and call
`u64::from_str_radix` with radix 16 and 2. -/

/-- Model of Rust `char::to_digit(radix)`, by code point arithmetic. -/
def charToDigit (radix : Nat) (c : Char) : Option Nat :=
  let n := c.toNat
  let d? : Option Nat :=
    if 48 ≤ n ∧ n ≤ 57 then some (n - 48)
    else if 97 ≤ n ∧ n ≤ 122 then some (n - 97 + 10)
    else if 65 ≤ n ∧ n ≤ 90 then some (n - 65 + 10)
    else none
  match d? with
  | some d => if d < radix then some d else none
  | none => none

/-- The digit loop of `u64::from_str_radix`: accumulate `acc * radix + d`,
failing on the first invalid digit or on 64-bit overflow. -/
def fromStrRadixGo (radix : Nat) : List Char → Nat → Except Unit Nat
  | [], acc => .ok acc
  | c :: rest, acc =>
    match charToDigit radix c with
    | none => .error ()
    | some d =>
      if acc * radix + d < 2 ^ 64 then fromStrRadixGo radix rest (acc * radix + d)
      else .error ()

/-- Body of `u64::from_str_radix` after the sign has been stripped: the empty
digit string is an error. -/
def fromStrRadixCore (radix : Nat) (ds : List Char) : Except Unit Nat :=
  if ds.isEmpty then .error () else fromStrRadixGo radix ds 0

/-- Model of `u64::from_str_radix(s, radix)`: an optional leading `+` sign is
skipped (for an unsigned target a `-` sign falls through to the digit loop and
fails there), then the digits are accumulated with overflow checking. -/
def fromStrRadix (radix : Nat) (s : List Char) : Except Unit Nat :=
  match s with
  | [] => fromStrRadixCore radix []
  | c :: ds => if c = '+' then fromStrRadixCore radix ds else fromStrRadixCore radix (c :: ds)

/-- parser.rs, `number_string` (lines 131-133), as a function of the node's
matched text; `node.error(e)` attaches the node's span, modelled by returning
the span as the error payload. -/
def number_string (s : List Char) : Except (List Char) Nat :=
  match fromStrRadix 10 s with
  | .ok v => .ok v
  | .error _ => .error s

/-! ## Byte slicing (parser.rs, `hex_string`/`binary_string`, lines 135-147)

`&s[1..len-2]` indexes by UTF-8 bytes and panics when an index is out of
bounds, when the range is inverted, or when an index falls inside a multi-byte
character.  A panic is modelled as `Option.none`. -/

/-- The UTF-8 byte length of one character (Rust `char::len_utf8`). -/
def utf8SizeR (c : Char) : Nat :=
  if c.toNat < 128 then 1
  else if c.toNat < 2048 then 2
  else if c.toNat < 65536 then 3
  else 4

/-- The UTF-8 byte length of a string (Rust `str::len`). -/
def utf8ByteSize : List Char → Nat
  | [] => 0
  | c :: rest => utf8SizeR c + utf8ByteSize rest

/-- Drop the first `n` bytes of a string; `none` when `n` is not a character
boundary or exceeds the string. -/
def dropBytes : List Char → Nat → Option (List Char)
  | l, 0 => some l
  | [], _ + 1 => none
  | c :: rest, n + 1 =>
    if utf8SizeR c ≤ n + 1 then dropBytes rest (n + 1 - utf8SizeR c) else none

/-- Take the first `n` bytes of a string; `none` when `n` is not a character
boundary or exceeds the string. -/
def takeBytes : List Char → Nat → Option (List Char)
  | _, 0 => some []
  | [], _ + 1 => none
  | c :: rest, n + 1 =>
    if utf8SizeR c ≤ n + 1 then (takeBytes rest (n + 1 - utf8SizeR c)).map (fun t => c :: t)
    else none

/-- Model of the Rust byte slice `&s[a..b]`: `none` models the panic. -/
def byteSlice (s : List Char) (a b : Nat) : Option (List Char) :=
  if a ≤ b ∧ b ≤ utf8ByteSize s then (dropBytes s a).bind (fun t => takeBytes t (b - a))
  else none

/-- parser.rs, `hex_string` (lines 135-140), as a function of the node's
matched text: slice off one leading byte and two trailing bytes, parse base 16.
`none` models a panic of the slice; parse errors carry the node span.  (For
byte lengths below 2 the Rust `len - 2` wraps around and the slice panics;
with truncated `Nat` subtraction the guard `a ≤ b` of `byteSlice` fails on
exactly the same inputs.) -/
def hex_string (s : List Char) : Option (Except (List Char) Nat) :=
  (byteSlice s 1 (utf8ByteSize s - 2)).map
    (fun mid => (fromStrRadix 16 mid).mapError (fun _ => s))

/-- parser.rs, `binary_string` (lines 142-147): same shape, base 2. -/
def binary_string (s : List Char) : Option (Except (List Char) Nat) :=
  (byteSlice s 1 (utf8ByteSize s - 2)).map
    (fun mid => (fromStrRadix 2 mid).mapError (fun _ => s))

/-! ## The generic parse tree and the typed model

The pest `Rule` enum (only the variants the reducer in parser.rs mentions are
needed), generic nodes (rule tag, matched span, ordered children), and the
model structures `Assignment`, `Module`, `MibInfo` pulled in from `crate::*`. -/

/-- Grammar-rule tags of the nodes handled by the reducer in parser.rs. -/
inductive Rule where
  | mib
  | EOI
  | module_definition
  | module_identifier
  | module_body
  | import_list
  | export_list
  | assignment_list
  | assignment
  | value_assignment
  | type_assignment
  | some_type
  | value
  | identifier
  | object_identifier_value
  | quoted_string
  | inner_string
  | number_string
  | hex_string
  | binary_string
  deriving DecidableEq

/-- Debug rendering `format!("{:?}", rule)` of a `Rule` value: the bare
variant name. -/
def ruleName : Rule → List Char
  | .mib => "mib".toList
  | .EOI => "EOI".toList
  | .module_definition => "module_definition".toList
  | .module_identifier => "module_identifier".toList
  | .module_body => "module_body".toList
  | .import_list => "import_list".toList
  | .export_list => "export_list".toList
  | .assignment_list => "assignment_list".toList
  | .assignment => "assignment".toList
  | .value_assignment => "value_assignment".toList
  | .type_assignment => "type_assignment".toList
  | .some_type => "some_type".toList
  | .value => "value".toList
  | .identifier => "identifier".toList
  | .object_identifier_value => "object_identifier_value".toList
  | .quoted_string => "quoted_string".toList
  | .inner_string => "inner_string".toList
  | .number_string => "number_string".toList
  | .hex_string => "hex_string".toList
  | .binary_string => "binary_string".toList

/-- A generic parse-tree node: `as_rule()`, `as_str()`, `children()`. -/
inductive PNode where
  | node (rule : Rule) (text : List Char) (children : List PNode)

/-- The node's grammar-rule tag (`Node::as_rule`). -/
def PNode.rule : PNode → Rule
  | .node r _ _ => r

/-- The node's matched source span (`Node::as_str`). -/
def PNode.text : PNode → List Char
  | .node _ t _ => t

/-- The node's ordered children (`Node::children`/`into_children`). -/
def PNode.children : PNode → List PNode
  | .node _ _ cs => cs

/-- The model `Assignment` struct (crate model, used by parser.rs). -/
structure Assignment where
  name : List Char
  a_type : List Char
  value : Option (List Char)
  deriving DecidableEq

/-- The model `Module` struct: a name and its assignments. -/
structure Module where
  name : List Char
  assignments : List Assignment
  deriving DecidableEq

/-- The model `MibInfo` struct: the list of parsed modules. -/
structure MibInfo where
  modules : List Module
  deriving DecidableEq

/-- The `ParseOptions` struct consumed by `parse_mib`. -/
structure ParseOptions where
  pretty_print : Bool

/-! ## The reducer (`impl MibParser`, parser.rs lines 30-148)

One Lean definition per `pest_consume` method.  A `match_nodes!` invocation
checks the rule tags of the ordered children against its pattern and feeds
each child to the reducer method of the same name; a pattern mismatch is a
`pest_consume` error, modelled as `Except.error` carrying the node's span. -/

/-- parser.rs `identifier` (lines 109-111): the matched text. -/
def identifier (n : PNode) : Except (List Char) (List Char) := .ok n.text

/-- parser.rs `some_type` (lines 90-92): `format!("{:?}", node.as_rule())`. -/
def some_type (n : PNode) : Except (List Char) (List Char) := .ok (ruleName n.rule)

/-- parser.rs `value` (lines 94-96): the raw matched text. -/
def value (n : PNode) : Except (List Char) (List Char) := .ok n.text

/-- parser.rs `import_list` (lines 57-59): `format!("{:?}", node.as_rule())`. -/
def import_list (n : PNode) : Except (List Char) (List Char) := .ok (ruleName n.rule)

/-- parser.rs `export_list` (lines 61-63): `format!("{:?}", node.as_rule())`. -/
def export_list (n : PNode) : Except (List Char) (List Char) := .ok (ruleName n.rule)

/-- parser.rs `object_identifier_value` (lines 105-107):
`format!("{:?}", node.as_rule())`. -/
def object_identifier_value (n : PNode) : Except (List Char) (List Char) :=
  .ok (ruleName n.rule)

/-- parser.rs `inner_string` (lines 119-129) on a node. -/
def inner_string (n : PNode) : Except (List Char) (List Char) :=
  .ok (decodeInnerText n.text)

/-- parser.rs `quoted_string` (lines 113-117): one `inner_string` child. -/
def quoted_string (n : PNode) : Except (List Char) (List Char) :=
  match n.children with
  | [i] => if i.rule = Rule.inner_string then inner_string i else .error n.text
  | _ => .error n.text

/-- parser.rs `value_assignment` (lines 78-82): children
`[identifier, some_type, value]` make an `Assignment` with `Some` value. -/
def value_assignment (n : PNode) : Except (List Char) Assignment :=
  match n.children with
  | [i, t, v] =>
    if i.rule = Rule.identifier ∧ t.rule = Rule.some_type ∧ v.rule = Rule.value then do
      let iv ← identifier i
      let tv ← some_type t
      let vv ← value v
      .ok { name := iv, a_type := tv, value := some vv }
    else .error n.text
  | _ => .error n.text

/-- parser.rs `type_assignment` (lines 84-88): children
`[identifier, some_type]` make an `Assignment` with `None` value. -/
def type_assignment (n : PNode) : Except (List Char) Assignment :=
  match n.children with
  | [i, t] =>
    if i.rule = Rule.identifier ∧ t.rule = Rule.some_type then do
      let iv ← identifier i
      let tv ← some_type t
      .ok { name := iv, a_type := tv, value := none }
    else .error n.text
  | _ => .error n.text

/-- parser.rs `assignment` (lines 71-76): one child, either a value
assignment or a type assignment. -/
def assignment (n : PNode) : Except (List Char) Assignment :=
  match n.children with
  | [c] =>
    if c.rule = Rule.value_assignment then value_assignment c
    else if c.rule = Rule.type_assignment then type_assignment c
    else .error n.text
  | _ => .error n.text

/-- Reduce a list of nodes in order with `f`, propagating the first error
(the `..` collection of `match_nodes!`). -/
def reduceList (f : PNode → Except (List Char) α) : List PNode → Except (List Char) (List α)
  | [] => .ok []
  | n :: rest => do
    let a ← f n
    let as ← reduceList f rest
    .ok (a :: as)

/-- parser.rs `assignment_list` (lines 65-69): every child is an
`assignment`; collect them in source order. -/
def assignment_list (n : PNode) : Except (List Char) (List Assignment) :=
  if n.children.all (fun c => c.rule = Rule.assignment) then reduceList assignment n.children
  else .error n.text

/-- parser.rs `module_body` (lines 48-55): the four accepted child shapes,
each reducing to just the assignment list. -/
def module_body (n : PNode) : Except (List Char) (List Assignment) :=
  match n.children with
  | [a] => if a.rule = Rule.assignment_list then assignment_list a else .error n.text
  | [x, a] =>
    if x.rule = Rule.export_list ∧ a.rule = Rule.assignment_list then assignment_list a
    else if x.rule = Rule.import_list ∧ a.rule = Rule.assignment_list then assignment_list a
    else .error n.text
  | [e, i, a] =>
    if e.rule = Rule.export_list ∧ i.rule = Rule.import_list ∧ a.rule = Rule.assignment_list then
      assignment_list a
    else .error n.text
  | _ => .error n.text

/-- parser.rs `module_identifier` (lines 98-103): a bare identifier, or an
identifier plus an object-identifier value joined by `=`. -/
def module_identifier (n : PNode) : Except (List Char) (List Char) :=
  match n.children with
  | [i] => if i.rule = Rule.identifier then identifier i else .error n.text
  | [i, v] =>
    if i.rule = Rule.identifier ∧ v.rule = Rule.object_identifier_value then do
      let mi ← identifier i
      let vv ← object_identifier_value v
      .ok (mi ++ "=".toList ++ vv)
    else .error n.text
  | _ => .error n.text

/-- parser.rs `module_definition` (lines 42-46). -/
def module_definition (n : PNode) : Except (List Char) Module :=
  match n.children with
  | [mi, mb] =>
    if mi.rule = Rule.module_identifier ∧ mb.rule = Rule.module_body then do
      let name ← module_identifier mi
      let assignments ← module_body mb
      .ok { name := name, assignments := assignments }
    else .error n.text
  | _ => .error n.text

/-- parser.rs `mib` (lines 36-40): module definitions followed by `EOI`. -/
def mib (n : PNode) : Except (List Char) MibInfo :=
  match n.children.getLast? with
  | some e =>
    if e.rule = Rule.EOI ∧ n.children.dropLast.all (fun c => c.rule = Rule.module_definition) then
      (reduceList module_definition n.children.dropLast).map (fun ms => { modules := ms })
    else .error n.text
  | none => .error n.text

/-! ## Diagnostic tree printer (parser.rs lines 154-183)

`print_node` dumps the generic tree to standard output, one line per node;
the dump is modelled as the list of printed lines. -/

/-- parser.rs `clean_string` (lines 179-183): squelch breaks with a literal
backslash-n and wrap in double quotes. -/
def clean_string (s : List Char) : List Char :=
  [dquote] ++ squelchWith ['\\', 'n'] s ++ [dquote]

/-- parser.rs `print_single_node` (lines 170-177): one rendered line. -/
def print_single_node (n : PNode) : List Char :=
  match n.rule with
  | .identifier => n.text
  | .number_string => n.text
  | .inner_string => clean_string n.text
  | r => "<<".toList ++ ruleName r ++ ">>".toList

/-- parser.rs `print_nodes` (lines 159-168): indented lines, depth-first. -/
def print_nodes : List PNode → Nat → List (List Char)
  | [], _ => []
  | .node r t cs :: rest, level =>
    (List.replicate (level * 2) ' ' ++ print_single_node (.node r t cs)) ::
      (print_nodes cs (level + 1) ++ print_nodes rest level)

/-- parser.rs `print_node` (lines 154-157): the root line, then children. -/
def print_node (n : PNode) : List (List Char) :=
  print_single_node n :: print_nodes n.children 1

/-! ## Entry point (parser.rs `parse_mib`, lines 16-25)

The grammar recognizer is generated by pest from `mib.pest`, which is not part
of the sources under review; `parse_mib` is therefore parameterized by the
recognizer.  The returned pair is the reduction result together with the lines
written to standard output by the optional diagnostic dump. -/

/-- parser.rs `parse_mib` (lines 16-25): recognize, optionally dump the tree,
then reduce.  The first component is the returned `Result`, the second the
diagnostic output. -/
def parse_mib (recognize : List Char → Except (List Char) PNode)
    (mib_text : List Char) (options : ParseOptions) :
    Except (List Char) MibInfo × List (List Char) :=
  match recognize mib_text with
  | .error e => (.error e, [])
  | .ok main_node =>
    (mib main_node, if options.pretty_print then print_node main_node else [])

/-! ## Spec-side notions

These definitions follow the wording of the specification (digit sequences,
their decimal value, the enclosed digit span of a radix literal) and are used
to state the claims against the source embeddings above. -/

/-- The enclosed content of a radix literal: everything except the leading
delimiter character and the two-character trailing radix marker. -/
def middleOf (s : List Char) : List Char := (s.drop 1).take (s.length - 3)

/-- A decimal digit character. -/
def isDecimalDigit (c : Char) : Bool := 48 ≤ c.toNat && c.toNat ≤ 57

/-- The usual base-`radix` value of a digit string, accumulated from `acc`,
reading digit values through `charToDigit`. -/
def digitsValueFrom (radix acc : Nat) : List Char → Nat
  | [] => acc
  | c :: rest => digitsValueFrom radix (acc * radix + (charToDigit radix c).getD 0) rest

/-- The usual decimal value of a decimal digit string. -/
def decimalValueFrom (acc : Nat) : List Char → Nat
  | [] => acc
  | c :: rest => decimalValueFrom (acc * 10 + (c.toNat - 48)) rest

/-- The decimal value of a digit sequence. -/
def decimalValue (s : List Char) : Nat := decimalValueFrom 0 s

/-- Contiguous-subsequence test: does `pat` occur inside `l`? -/
def startsWithSeq : List Char → List Char → Bool
  | _, [] => true
  | [], _ :: _ => false
  | c :: cs, p :: ps => c = p && startsWithSeq cs ps

/-- Does the pattern occur contiguously anywhere in the list? -/
def containsSeq : List Char → List Char → Bool
  | [], pat => startsWithSeq [] pat
  | c :: rest, pat => startsWithSeq (c :: rest) pat || containsSeq rest pat

/-! ## Concrete example nodes and spans -/

/-- The hex-literal example span of the spec, apostrophes written via `tick`. -/
def hexExample : List Char := tick :: ("DEADBEEF".toList ++ [tick, 'H'])

/-- The binary-literal example span of the spec. -/
def binExample : List Char := tick :: ("11110000".toList ++ [tick, 'b'])

/-- An `inner_string` node for a whitespace-wrapped line-break example. -/
def exC1Inner : PNode := .node Rule.inner_string ("this is a    \n   quoted string".toList) []

/-- A `quoted_string` node wrapping `exC1Inner`. -/
def exC1QS : PNode :=
  .node Rule.quoted_string ("\"this is a    \n   quoted string\"".toList) [exC1Inner]

/-- An `inner_string` node whose content contains a doubled double quote. -/
def exC2Inner : PNode := .node Rule.inner_string ("ab\"\"cd".toList) []

/-- The `quoted_string` node wrapping `exC2Inner`. -/
def exC2QS : PNode := .node Rule.quoted_string ("\"ab\"\"cd\"".toList) [exC2Inner]

/-- A `value` node whose value expression is that quoted-string literal. -/
def exC2Value : PNode := .node Rule.value ("\"ab\"\"cd\"".toList) [exC2QS]

/-- An `identifier` node. -/
def exC2Id : PNode := .node Rule.identifier ("x".toList) []

/-- A `some_type` node. -/
def exC2Type : PNode := .node Rule.some_type ("OCTET STRING".toList) []

/-- A `value_assignment` node whose value is a quoted-string literal. -/
def exC2VA : PNode :=
  .node Rule.value_assignment ("x OCTET STRING ::= \"ab\"\"cd\"".toList)
    [exC2Id, exC2Type, exC2Value]

/-! ## Further example nodes (module bodies, identifiers, assignments) -/

/-- An `import_list` node, as in the spec's import-then-assignments test. -/
def exC4Imp : PNode :=
  .node Rule.import_list ("IMPORTS enterprises FROM SNMPv2-SMI;".toList) []

/-- An `identifier` node for a type assignment. -/
def exC4Id : PNode := .node Rule.identifier ("foo".toList) []

/-- A `some_type` node for a type assignment. -/
def exC4Ty : PNode := .node Rule.some_type ("INTEGER".toList) []

/-- A `type_assignment` node. -/
def exC4TA : PNode := .node Rule.type_assignment ("foo INTEGER".toList) [exC4Id, exC4Ty]

/-- An `assignment` node wrapping the type assignment. -/
def exC4Asn : PNode := .node Rule.assignment ("foo INTEGER".toList) [exC4TA]

/-- An `assignment_list` node with one assignment. -/
def exC4AL : PNode := .node Rule.assignment_list ("foo INTEGER".toList) [exC4Asn]

/-- A `module_body` node of the import-then-assignments shape. -/
def exC4MB : PNode :=
  .node Rule.module_body ("IMPORTS enterprises FROM SNMPv2-SMI; foo INTEGER".toList)
    [exC4Imp, exC4AL]

/-- Modelled from the spec: the matched text of the `some_type` node of the
end-to-end MODULE-IDENTITY example (the grammar that shapes this span,
`mib.pest`, is not among the sources under `src/`). -/
def synoTypeText : List Char :=
  ("MODULE-IDENTITY\n    LAST-UPDATED \"201309110000Z\"\n    ORGANIZATION \"www.synology.com\"\n    CONTACT-INFO \"postal: Jay Pan\"\n    DESCRIPTION \"Characteristics of the disk information\"\n    REVISION \"201309110000Z\"\n    DESCRIPTION \"Second draft.\"").toList

/-- The `identifier` child of the synoDisk example. -/
def synoDiskId : PNode := .node Rule.identifier ("synoDisk".toList) []

/-- The `some_type` child of the synoDisk example. -/
def synoDiskType : PNode := .node Rule.some_type synoTypeText []

/-- The `value` child of the synoDisk example. -/
def synoDiskValue : PNode := .node Rule.value ("{ synology 2 }".toList) []

/-- Modelled from the spec: the `value_assignment` parse-tree node the
recognizer produces for the spec's end-to-end synoDisk MODULE-IDENTITY
example: an `identifier` child matching `synoDisk`, a `some_type` child
matching the whole MODULE-IDENTITY macro body, and a `value` child matching
`{ synology 2 }`. -/
def synoDiskVA : PNode :=
  .node Rule.value_assignment
    (("synoDisk ".toList ++ synoTypeText ++ "\n    ::= { synology 2 }".toList))
    [synoDiskId, synoDiskType, synoDiskValue]

/-- A `value_assignment` node for `synology OBJECT IDENTIFIER ::=
{ enterprises 6574 }` (a non-MODULE-IDENTITY type form). -/
def synologyVA : PNode :=
  .node Rule.value_assignment
    ("synology OBJECT IDENTIFIER ::= { enterprises 6574 }".toList)
    [.node Rule.identifier ("synology".toList) [],
     .node Rule.some_type ("OBJECT IDENTIFIER".toList) [],
     .node Rule.value ("{ enterprises 6574 }".toList) []]

/-- An `identifier` node for a module header. -/
def exC6Id : PNode := .node Rule.identifier ("FOO".toList) []

/-- An `object_identifier_value` node whose matched text is `{ iso 3 }`. -/
def exC6Oid : PNode := .node Rule.object_identifier_value ("{ iso 3 }".toList) []

/-- A `module_identifier` node carrying an explicit OID assignment. -/
def exC6MI : PNode := .node Rule.module_identifier ("FOO { iso 3 }".toList) [exC6Id, exC6Oid]

/-- An `assignment` node wrapping a type assignment (for claim C7). -/
def exC7Asn : PNode := .node Rule.assignment ("foo INTEGER".toList) [exC4TA]

/-! ## Helper lemmas about `charToDigit` and `fromStrRadix` -/

theorem charToDigit_eq_none (radix : Nat) (c : Char)
    (h : c.toNat < 48 ∨ (57 < c.toNat ∧ c.toNat < 65) ∨ (90 < c.toNat ∧ c.toNat < 97) ∨
      122 < c.toNat) :
    charToDigit radix c = none := by
  have h1 : ¬(48 ≤ c.toNat ∧ c.toNat ≤ 57) := by omega
  have h2 : ¬(97 ≤ c.toNat ∧ c.toNat ≤ 122) := by omega
  have h3 : ¬(65 ≤ c.toNat ∧ c.toNat ≤ 90) := by omega
  simp [charToDigit, h1, h2, h3]

theorem charToDigit_plus (radix : Nat) : charToDigit radix '+' = none :=
  charToDigit_eq_none radix '+' (Or.inl (by decide))

theorem ne_plus_of_isSome (radix : Nat) (c : Char)
    (h : (charToDigit radix c).isSome) : c ≠ '+' := by
  intro hc
  rw [hc, charToDigit_plus] at h
  exact (Bool.false_ne_true h).elim

theorem charToDigit_decimal (c : Char) (h : isDecimalDigit c = true) :
    charToDigit 10 c = some (c.toNat - 48) := by
  simp only [isDecimalDigit, Bool.and_eq_true, decide_eq_true_eq] at h
  have hd : c.toNat - 48 < 10 := by omega
  simp [charToDigit, h.1, h.2, hd]

theorem digitsValueFrom_decimal (s : List Char) :
    ∀ acc, (∀ c ∈ s, isDecimalDigit c = true) →
      digitsValueFrom 10 acc s = decimalValueFrom acc s := by
  induction s with
  | nil => intro acc _; rfl
  | cons c rest ih =>
    intro acc h
    have hc := charToDigit_decimal c (h c (by simp))
    show digitsValueFrom 10 (acc * 10 + (charToDigit 10 c).getD 0) rest =
      decimalValueFrom (acc * 10 + (c.toNat - 48)) rest
    rw [hc]
    exact ih _ (fun x hx => h x (by simp [hx]))

theorem le_digitsValueFrom (radix : Nat) (hr : 1 ≤ radix) (s : List Char) :
    ∀ acc, acc ≤ digitsValueFrom radix acc s := by
  induction s with
  | nil => intro acc; exact le_refl acc
  | cons c rest ih =>
    intro acc
    have hm : acc * 1 ≤ acc * radix := Nat.mul_le_mul_left acc hr
    have h0 : acc * 1 = acc := Nat.mul_one acc
    have h1 : acc ≤ acc * radix + (charToDigit radix c).getD 0 := by omega
    exact le_trans h1 (ih _)

theorem fromStrRadixGo_ok (radix : Nat) (hr : 1 ≤ radix) (s : List Char) :
    ∀ acc, (∀ c ∈ s, (charToDigit radix c).isSome) →
      digitsValueFrom radix acc s < 2 ^ 64 →
      fromStrRadixGo radix s acc = .ok (digitsValueFrom radix acc s) := by
  induction s with
  | nil => intro acc _ _; rfl
  | cons c rest ih =>
    intro acc hall hlt
    obtain ⟨d, hd⟩ := Option.isSome_iff_exists.mp (hall c (by simp))
    have hrest : ∀ x ∈ rest, (charToDigit radix x).isSome :=
      fun x hx => hall x (by simp [hx])
    have hval : digitsValueFrom radix acc (c :: rest) =
        digitsValueFrom radix (acc * radix + d) rest := by
      simp [digitsValueFrom, hd]
    rw [hval] at hlt
    have hacc : acc * radix + d < 2 ^ 64 :=
      lt_of_le_of_lt (le_digitsValueFrom radix hr rest _) hlt
    simp only [fromStrRadixGo, hd, if_pos hacc]
    rw [hval]
    exact ih _ hrest hlt

theorem fromStrRadixGo_overflow (radix : Nat) (s : List Char) :
    ∀ acc, (∀ c ∈ s, (charToDigit radix c).isSome) → acc < 2 ^ 64 →
      2 ^ 64 ≤ digitsValueFrom radix acc s →
      fromStrRadixGo radix s acc = .error () := by
  induction s with
  | nil =>
    intro acc _ hacc hge
    exact absurd hge (by simp [digitsValueFrom]; omega)
  | cons c rest ih =>
    intro acc hall hacc hge
    obtain ⟨d, hd⟩ := Option.isSome_iff_exists.mp (hall c (by simp))
    have hrest : ∀ x ∈ rest, (charToDigit radix x).isSome :=
      fun x hx => hall x (by simp [hx])
    have hval : digitsValueFrom radix acc (c :: rest) =
        digitsValueFrom radix (acc * radix + d) rest := by
      simp [digitsValueFrom, hd]
    rw [hval] at hge
    by_cases hlt : acc * radix + d < 2 ^ 64
    · simp only [fromStrRadixGo, hd, if_pos hlt]
      exact ih _ hrest hlt hge
    · simp only [fromStrRadixGo, hd, if_neg hlt]

theorem fromStrRadixGo_invalid (radix : Nat) (s : List Char) :
    ∀ acc, (∃ c ∈ s, charToDigit radix c = none) →
      fromStrRadixGo radix s acc = .error () := by
  induction s with
  | nil =>
    intro acc h
    obtain ⟨c, hc, _⟩ := h
    cases hc
  | cons c rest ih =>
    intro acc h
    obtain ⟨x, hx, hnone⟩ := h
    rcases List.mem_cons.mp hx with hxc | hx'
    · subst hxc
      simp only [fromStrRadixGo, hnone]
    · cases hcd : charToDigit radix c with
      | none => simp only [fromStrRadixGo, hcd]
      | some d =>
        by_cases hlt : acc * radix + d < 2 ^ 64
        · simp only [fromStrRadixGo, hcd, if_pos hlt]
          exact ih _ ⟨x, hx', hnone⟩
        · simp only [fromStrRadixGo, hcd, if_neg hlt]

theorem fromStrRadix_ok (radix : Nat) (hr : 1 ≤ radix) (s : List Char)
    (hne : s ≠ []) (hall : ∀ c ∈ s, (charToDigit radix c).isSome)
    (hlt : digitsValueFrom radix 0 s < 2 ^ 64) :
    fromStrRadix radix s = .ok (digitsValueFrom radix 0 s) := by
  cases s with
  | nil => exact absurd rfl hne
  | cons c ds =>
    have hcp : c ≠ '+' := ne_plus_of_isSome radix c (hall c (by simp))
    simp only [fromStrRadix, if_neg hcp, fromStrRadixCore, List.isEmpty_cons, if_neg]
    exact fromStrRadixGo_ok radix hr (c :: ds) 0 hall hlt

theorem fromStrRadix_overflow (radix : Nat) (hr : 1 ≤ radix) (s : List Char)
    (hne : s ≠ []) (hall : ∀ c ∈ s, (charToDigit radix c).isSome)
    (hge : 2 ^ 64 ≤ digitsValueFrom radix 0 s) :
    fromStrRadix radix s = .error () := by
  cases s with
  | nil => exact absurd rfl hne
  | cons c ds =>
    have hcp : c ≠ '+' := ne_plus_of_isSome radix c (hall c (by simp))
    simp only [fromStrRadix, if_neg hcp, fromStrRadixCore, List.isEmpty_cons, if_neg]
    exact fromStrRadixGo_overflow radix (c :: ds) 0 hall (by norm_num) hge

theorem fromStrRadix_invalid (radix : Nat) (s : List Char)
    (h : ∃ c ∈ s, charToDigit radix c = none ∧ c ≠ '+') :
    fromStrRadix radix s = .error () := by
  obtain ⟨x, hx, hnone, hxp⟩ := h
  cases s with
  | nil => cases hx
  | cons c ds =>
    by_cases hcp : c = '+'
    · subst hcp
      have hx' : x ∈ ds := by
        rcases List.mem_cons.mp hx with hxc | hx' <;> [exact absurd hxc hxp; exact hx']
      cases ds with
      | nil => cases hx'
      | cons d dt =>
        simp only [fromStrRadix, if_pos rfl, fromStrRadixCore, List.isEmpty_cons, if_neg]
        exact fromStrRadixGo_invalid radix (d :: dt) 0 ⟨x, hx', hnone⟩
    · simp only [fromStrRadix, if_neg hcp, fromStrRadixCore, List.isEmpty_cons, if_neg]
      exact fromStrRadixGo_invalid radix (c :: ds) 0 ⟨x, hx, hnone⟩

/-! ## Helper lemmas about byte slicing -/

theorem utf8SizeR_eq_one (c : Char) (h : c.toNat < 128) : utf8SizeR c = 1 := by
  simp [utf8SizeR, h]

theorem utf8ByteSize_eq_length (s : List Char) (h : ∀ c ∈ s, c.toNat < 128) :
    utf8ByteSize s = s.length := by
  induction s with
  | nil => rfl
  | cons c rest ih =>
    have h1 := utf8SizeR_eq_one c (h c (by simp))
    have h2 := ih (fun x hx => h x (by simp [hx]))
    simp only [utf8ByteSize, h1, h2, List.length_cons]
    omega

theorem dropBytes_ascii (s : List Char) (h : ∀ c ∈ s, c.toNat < 128) :
    ∀ n, n ≤ s.length → dropBytes s n = some (s.drop n) := by
  induction s with
  | nil =>
    intro n hn
    have : n = 0 := Nat.le_zero.mp (by simpa using hn)
    subst this
    rfl
  | cons c rest ih =>
    intro n hn
    cases n with
    | zero => rfl
    | succ m =>
      have h1 := utf8SizeR_eq_one c (h c (by simp))
      have h2 : 1 ≤ m + 1 := by omega
      simp only [dropBytes, h1, if_pos h2, Nat.add_sub_cancel, List.drop_succ_cons]
      exact ih (fun x hx => h x (by simp [hx])) m (by simpa using hn)

theorem takeBytes_ascii (s : List Char) (h : ∀ c ∈ s, c.toNat < 128) :
    ∀ n, n ≤ s.length → takeBytes s n = some (s.take n) := by
  induction s with
  | nil =>
    intro n hn
    have : n = 0 := Nat.le_zero.mp (by simpa using hn)
    subst this
    rfl
  | cons c rest ih =>
    intro n hn
    cases n with
    | zero => rfl
    | succ m =>
      have h1 := utf8SizeR_eq_one c (h c (by simp))
      have h2 : 1 ≤ m + 1 := by omega
      rw [takeBytes, h1, if_pos h2, Nat.add_sub_cancel,
        ih (fun x hx => h x (by simp [hx])) m (by simpa using hn)]
      rfl

theorem byteSlice_ascii (s : List Char) (a b : Nat) (h : ∀ c ∈ s, c.toNat < 128)
    (hab : a ≤ b) (hb : b ≤ s.length) :
    byteSlice s a b = some ((s.drop a).take (b - a)) := by
  unfold byteSlice
  rw [utf8ByteSize_eq_length s h, if_pos ⟨hab, hb⟩,
    dropBytes_ascii s h a (le_trans hab hb)]
  have hdrop : ∀ c ∈ s.drop a, c.toNat < 128 := fun c hc => h c (List.drop_subset a s hc)
  have hlen : b - a ≤ (s.drop a).length := by
    rw [List.length_drop]
    omega
  exact takeBytes_ascii (s.drop a) hdrop (b - a) hlen

theorem slice_middle (s : List Char) (h3 : 3 ≤ s.length) (h : ∀ c ∈ s, c.toNat < 128) :
    byteSlice s 1 (utf8ByteSize s - 2) = some (middleOf s) := by
  rw [utf8ByteSize_eq_length s h,
    byteSlice_ascii s 1 (s.length - 2) h (by omega) (by omega)]
  unfold middleOf
  congr 1

/-! ## Shape lemmas for assignments -/

theorem value_assignment_some (c : PNode) (a : Assignment)
    (h : value_assignment c = .ok a) : ∃ v, a.value = some v := by
  unfold value_assignment at h
  rcases hc : c.children with _ | ⟨i, rest⟩
  · rw [hc] at h
    exact Except.noConfusion (show (Except.error c.text : Except (List Char) Assignment) = .ok a from h)
  · rcases rest with _ | ⟨t, rest2⟩
    · rw [hc] at h
      exact Except.noConfusion (show (Except.error c.text : Except (List Char) Assignment) = .ok a from h)
    · rcases rest2 with _ | ⟨v, rest3⟩
      · rw [hc] at h
        exact Except.noConfusion (show (Except.error c.text : Except (List Char) Assignment) = .ok a from h)
      · rcases rest3 with _ | ⟨w, rest4⟩
        · rw [hc] at h
          have h' : (if i.rule = Rule.identifier ∧ t.rule = Rule.some_type ∧ v.rule = Rule.value
              then Except.ok ({ name := i.text,
                                a_type := ruleName t.rule,
                                value := some v.text } : Assignment)
              else Except.error c.text) = .ok a := h
          by_cases hg : i.rule = Rule.identifier ∧ t.rule = Rule.some_type ∧ v.rule = Rule.value
          · rw [if_pos hg] at h'
            injection h' with h2
            exact ⟨v.text, by rw [← h2]⟩
          · rw [if_neg hg] at h'
            exact Except.noConfusion h'
        · rw [hc] at h
          exact Except.noConfusion (show (Except.error c.text : Except (List Char) Assignment) = .ok a from h)

theorem type_assignment_none (c : PNode) (a : Assignment)
    (h : type_assignment c = .ok a) : a.value = none := by
  unfold type_assignment at h
  rcases hc : c.children with _ | ⟨i, rest⟩
  · rw [hc] at h
    exact Except.noConfusion (show (Except.error c.text : Except (List Char) Assignment) = .ok a from h)
  · rcases rest with _ | ⟨t, rest2⟩
    · rw [hc] at h
      exact Except.noConfusion (show (Except.error c.text : Except (List Char) Assignment) = .ok a from h)
    · rcases rest2 with _ | ⟨v, rest3⟩
      · rw [hc] at h
        have h' : (if i.rule = Rule.identifier ∧ t.rule = Rule.some_type
            then Except.ok ({ name := i.text,
                              a_type := ruleName t.rule,
                              value := none } : Assignment)
            else Except.error c.text) = .ok a := h
        by_cases hg : i.rule = Rule.identifier ∧ t.rule = Rule.some_type
        · rw [if_pos hg] at h'
          injection h' with h2
          rw [← h2]
        · rw [if_neg hg] at h'
          exact Except.noConfusion h'
      · rw [hc] at h
        exact Except.noConfusion (show (Except.error c.text : Except (List Char) Assignment) = .ok a from h)

/-! ## Claim theorems -/

/-- Claim C1: for every quoted-string literal, the decoded result is obtained
from the raw inner content by first collapsing every doubled double quote to
one literal double quote and then collapsing every run of spaces/tabs around
a line break (with optional carriage return) to a single line feed; in
particular the spec's example inner contents decode as stated, and the
`quoted_string` reduction returns exactly this decoding of its
`inner_string` child. -/
theorem C1_quoted_string_decoding :
    (∀ raw : List Char, decodeInnerText raw = squelchBreaks (collapseDoubledQuotes raw)) ∧
    decodeInnerText ("this is a quoted string".toList) = "this is a quoted string".toList ∧
    decodeInnerText ("this is a \"\"quoted\"\" string".toList) =
      "this is a \"quoted\" string".toList ∧
    decodeInnerText ("this is a    \n   quoted string".toList) =
      "this is a\nquoted string".toList ∧
    decodeInnerText ("this is a    \r\n   quoted string".toList) =
      "this is a\nquoted string".toList ∧
    (∀ n i : PNode, n.children = [i] → i.rule = Rule.inner_string →
      quoted_string n = .ok (decodeInnerText i.text)) := by
  refine ⟨fun raw => rfl, by decide, by decide, by decide, by decide, ?_⟩
  intro n i hc hi
  unfold quoted_string
  rw [hc]
  show (if i.rule = Rule.inner_string then inner_string i else Except.error n.text) = _
  rw [if_pos hi]
  rfl

/-- Claim C1 witness: the general `quoted_string` conjunct instantiated at a
concrete quoted-string node. -/
theorem C1_quoted_string_decoding_witness :
    quoted_string exC1QS = .ok (decodeInnerText exC1Inner.text) :=
  C1_quoted_string_decoding.2.2.2.2.2 exC1QS exC1Inner rfl rfl

/-- Claim C2 counterexample: for a value assignment whose value expression is
a quoted-string literal, the Assignment folds the raw matched text of the
value node, which differs from the decoded primitive that the quoted-string
literal decoder produces for the same literal — the decoded primitive is not
what gets folded upward. -/
theorem C2_counterexample :
    value_assignment exC2VA =
      .ok { name := "x".toList, a_type := "some_type".toList,
            value := some ("\"ab\"\"cd\"".toList) } ∧
    quoted_string exC2QS = .ok ("ab\"cd".toList) ∧
    ("\"ab\"\"cd\"".toList) ≠ ("ab\"cd".toList) :=
  ⟨rfl, rfl, by decide⟩

/-- Claim C2 amended: for every successfully parsed value assignment, the
Assignment's value representation is the raw matched source text of the value
expression in every case — also when the value expression is a literal leaf —
and the type descriptor is the constant rule-identity text `some_type`; the
literal decoders are not invoked on the value path. -/
theorem C2_value_always_raw_text (n i t v : PNode)
    (hc : n.children = [i, t, v]) (hi : i.rule = Rule.identifier)
    (ht : t.rule = Rule.some_type) (hv : v.rule = Rule.value) :
    value_assignment n =
      .ok { name := i.text, a_type := "some_type".toList, value := some v.text } := by
  unfold value_assignment
  rw [hc]
  show (if i.rule = Rule.identifier ∧ t.rule = Rule.some_type ∧ v.rule = Rule.value then
      Except.ok ({ name := i.text, a_type := ruleName t.rule, value := some v.text } : Assignment)
    else Except.error n.text) = _
  rw [if_pos ⟨hi, ht, hv⟩, ht]
  rfl

/-- Claim C2 witness: the amended statement at the concrete quoted-string
valued assignment. -/
theorem C2_value_always_raw_text_witness :
    value_assignment exC2VA =
      .ok { name := "x".toList, a_type := "some_type".toList,
            value := some ("\"ab\"\"cd\"".toList) } :=
  C2_value_always_raw_text exC2VA exC2Id exC2Type exC2Value rfl rfl rfl rfl

/-- Claim C3: hex decoding strips one leading character and the trailing
two-character radix marker and parses the remainder in base 16 into an
unsigned 64-bit integer, failing on invalid digits or overflow; binary
decoding is the same in base 2; the spec's examples decode as stated. -/
theorem C3_radix_decoding :
    hex_string hexExample = some (.ok 0xDEADBEEF) ∧
    binary_string binExample = some (.ok 240) ∧
    (∀ s : List Char, 3 ≤ s.length → (∀ c ∈ s, c.toNat < 128) →
      hex_string s = some ((fromStrRadix 16 (middleOf s)).mapError (fun _ => s)) ∧
      binary_string s = some ((fromStrRadix 2 (middleOf s)).mapError (fun _ => s))) ∧
    (∀ radix : Nat, ∀ m : List Char, 1 ≤ radix → m ≠ [] →
      (∀ c ∈ m, (charToDigit radix c).isSome) → digitsValueFrom radix 0 m < 2 ^ 64 →
      fromStrRadix radix m = .ok (digitsValueFrom radix 0 m)) ∧
    (∀ radix : Nat, ∀ m : List Char, (∃ c ∈ m, charToDigit radix c = none ∧ c ≠ '+') →
      fromStrRadix radix m = .error ()) ∧
    (∀ radix : Nat, ∀ m : List Char, 1 ≤ radix → m ≠ [] →
      (∀ c ∈ m, (charToDigit radix c).isSome) → 2 ^ 64 ≤ digitsValueFrom radix 0 m →
      fromStrRadix radix m = .error ()) := by
  refine ⟨by rfl, by rfl, ?_, ?_, ?_, ?_⟩
  · intro s h3 hascii
    constructor
    · unfold hex_string
      rw [slice_middle s h3 hascii]
      rfl
    · unfold binary_string
      rw [slice_middle s h3 hascii]
      rfl
  · intro radix m hr hne hall hlt
    exact fromStrRadix_ok radix hr m hne hall hlt
  · intro radix m h
    exact fromStrRadix_invalid radix m h
  · intro radix m hr hne hall hge
    exact fromStrRadix_overflow radix hr m hne hall hge

/-- Claim C3 witness: the strip-and-parse conjunct at the hex example span. -/
theorem C3_radix_decoding_witness :
    hex_string hexExample =
      some ((fromStrRadix 16 (middleOf hexExample)).mapError (fun _ => hexExample)) ∧
    binary_string hexExample =
      some ((fromStrRadix 2 (middleOf hexExample)).mapError (fun _ => hexExample)) :=
  C3_radix_decoding.2.2.1 hexExample (by decide) (by decide)

/-- Claim C10: for every span of the lexical shape the recognizer delivers to
the hex or binary decoder — at least three ASCII characters — the byte slice
from position 1 to length minus 2 is in bounds and on character boundaries,
so the decoder does not panic and returns a Result. -/
theorem C10_slice_safe (s : List Char) (h3 : 3 ≤ s.length)
    (hascii : ∀ c ∈ s, c.toNat < 128) :
    (∃ r, hex_string s = some r) ∧ (∃ r, binary_string s = some r) := by
  refine ⟨⟨(fromStrRadix 16 (middleOf s)).mapError (fun _ => s), ?_⟩,
    ⟨(fromStrRadix 2 (middleOf s)).mapError (fun _ => s), ?_⟩⟩
  · unfold hex_string
    rw [slice_middle s h3 hascii]
    rfl
  · unfold binary_string
    rw [slice_middle s h3 hascii]
    rfl

/-- Claim C10 witness: the no-panic statement at the hex example span. -/
theorem C10_slice_safe_witness :
    (∃ r, hex_string hexExample = some r) ∧ (∃ r, binary_string hexExample = some r) :=
  C10_slice_safe hexExample (by decide) (by decide)

/-! ## Claim theorems, continued -/

/-- Claim C4: every successfully shaped module body reduces to exactly the
reduction of its assignment-list child — the assignments in source order —
with export and import sections contributing nothing. -/
theorem C4_module_body_assignments (n e i a : PNode)
    (hshape : n.children = [a] ∨
      (n.children = [e, a] ∧ e.rule = Rule.export_list) ∨
      (n.children = [i, a] ∧ i.rule = Rule.import_list) ∨
      (n.children = [e, i, a] ∧ e.rule = Rule.export_list ∧ i.rule = Rule.import_list))
    (ha : a.rule = Rule.assignment_list) :
    module_body n = assignment_list a ∧
    (a.children.all (fun c => c.rule = Rule.assignment) →
      module_body n = reduceList assignment a.children) := by
  have hmain : module_body n = assignment_list a := by
    unfold module_body
    rcases hshape with hc | ⟨hc, he⟩ | ⟨hc, hi⟩ | ⟨hc, he, hi⟩
    · rw [hc]
      show (if a.rule = Rule.assignment_list then assignment_list a else Except.error n.text) = _
      rw [if_pos ha]
    · rw [hc]
      show (if e.rule = Rule.export_list ∧ a.rule = Rule.assignment_list then assignment_list a
        else if e.rule = Rule.import_list ∧ a.rule = Rule.assignment_list then assignment_list a
        else Except.error n.text) = _
      rw [if_pos ⟨he, ha⟩]
    · rw [hc]
      show (if i.rule = Rule.export_list ∧ a.rule = Rule.assignment_list then assignment_list a
        else if i.rule = Rule.import_list ∧ a.rule = Rule.assignment_list then assignment_list a
        else Except.error n.text) = _
      by_cases hie : i.rule = Rule.export_list ∧ a.rule = Rule.assignment_list
      · rw [if_pos hie]
      · rw [if_neg hie, if_pos ⟨hi, ha⟩]
    · rw [hc]
      show (if e.rule = Rule.export_list ∧ i.rule = Rule.import_list ∧
          a.rule = Rule.assignment_list then assignment_list a
        else Except.error n.text) = _
      rw [if_pos ⟨he, hi, ha⟩]
  refine ⟨hmain, fun hall => ?_⟩
  rw [hmain]
  unfold assignment_list
  rw [if_pos hall]

/-- Claim C4 witness: the import-then-assignments shape at a concrete module
body. -/
theorem C4_module_body_assignments_witness :
    module_body exC4MB = assignment_list exC4AL ∧
    (exC4AL.children.all (fun c => c.rule = Rule.assignment) →
      module_body exC4MB = reduceList assignment exC4AL.children) :=
  C4_module_body_assignments exC4MB exC4Imp exC4Imp exC4AL
    (Or.inr (Or.inr (Or.inl ⟨rfl, rfl⟩))) rfl

/-- Claim C5 counterexample: the synoDisk MODULE-IDENTITY example reduces
with name `synoDisk` and value text `{ synology 2 }`, but its type descriptor
is the constant rule-identity text `some_type` — the same descriptor that a
non-MODULE-IDENTITY value assignment receives, and one that does not contain
`MODULE-IDENTITY` — so the descriptor does not identify the MODULE-IDENTITY
macro form. -/
theorem C5_counterexample :
    value_assignment synoDiskVA =
      .ok { name := "synoDisk".toList, a_type := "some_type".toList,
            value := some ("{ synology 2 }".toList) } ∧
    value_assignment synologyVA =
      .ok { name := "synology".toList, a_type := "some_type".toList,
            value := some ("{ enterprises 6574 }".toList) } ∧
    containsSeq ("some_type".toList) ("MODULE-IDENTITY".toList) = false :=
  ⟨rfl, rfl, by decide⟩

/-- Claim C5 amended: parsing the spec's synoDisk MODULE-IDENTITY value
assignment yields an Assignment whose name is `synoDisk`, whose type
descriptor is the generic rule-identity placeholder text `some_type` (the
same for every type form, so it does not single out MODULE-IDENTITY), and
whose value text equals `{ synology 2 }`. -/
theorem C5_synoDisk_assignment :
    value_assignment synoDiskVA =
      .ok { name := "synoDisk".toList, a_type := "some_type".toList,
            value := some ("{ synology 2 }".toList) } := rfl

/-- Claim C6 counterexample: for a module header carrying the OID value
`{ iso 3 }`, the reduced module name is the identifier suffixed with `=` and
the fixed rule-identity text `object_identifier_value`, not the
object-identifier value itself. -/
theorem C6_counterexample :
    module_identifier exC6MI = .ok ("FOO=object_identifier_value".toList) ∧
    ("FOO=object_identifier_value".toList) ≠ ("FOO=".toList ++ "{ iso 3 }".toList) :=
  ⟨rfl, by decide⟩

/-- Claim C6 amended: a module header without an OID assignment reduces to
the bare module identifier; one with an OID assignment reduces to the
identifier suffixed with `=` followed by the constant rule-identity text
`object_identifier_value` of the matched OID node (not the OID's source
text). -/
theorem C6_module_name (n i v : PNode) :
    (n.children = [i] → i.rule = Rule.identifier → module_identifier n = .ok i.text) ∧
    (n.children = [i, v] → i.rule = Rule.identifier →
      v.rule = Rule.object_identifier_value →
      module_identifier n = .ok (i.text ++ "=".toList ++ "object_identifier_value".toList)) := by
  constructor
  · intro hc hi
    unfold module_identifier
    rw [hc]
    show (if i.rule = Rule.identifier then identifier i else Except.error n.text) = _
    rw [if_pos hi]
    rfl
  · intro hc hi hv
    unfold module_identifier
    rw [hc]
    show (if i.rule = Rule.identifier ∧ v.rule = Rule.object_identifier_value then
        Except.ok (i.text ++ "=".toList ++ ruleName v.rule)
      else Except.error n.text) = _
    rw [if_pos ⟨hi, hv⟩, hv]
    rfl

/-- Claim C6 witness: the amended statement at the concrete OID-carrying
module header. -/
theorem C6_module_name_witness :
    module_identifier exC6MI =
      .ok (exC6Id.text ++ "=".toList ++ "object_identifier_value".toList) :=
  (C6_module_name exC6MI exC6Id exC6Oid).2 rfl rfl rfl

/-- Claim C7: every Assignment produced by the `assignment` reduction comes
from exactly one of the two grammar alternatives: a `value_assignment` child
giving `Some` value, or a `type_assignment` child giving `None` value; no
other shape is produced. -/
theorem C7_assignment_shape (n : PNode) (a : Assignment) (h : assignment n = .ok a) :
    (∃ c, n.children = [c] ∧ c.rule = Rule.value_assignment ∧ ∃ v, a.value = some v) ∨
    (∃ c, n.children = [c] ∧ c.rule = Rule.type_assignment ∧ a.value = none) := by
  unfold assignment at h
  rcases hc : n.children with _ | ⟨c, rest⟩
  · rw [hc] at h
    exact Except.noConfusion (show (Except.error n.text : Except (List Char) Assignment) = .ok a from h)
  · rcases rest with _ | ⟨c2, rest2⟩
    · rw [hc] at h
      have h' : (if c.rule = Rule.value_assignment then value_assignment c
          else if c.rule = Rule.type_assignment then type_assignment c
          else Except.error n.text) = .ok a := h
      by_cases hv : c.rule = Rule.value_assignment
      · rw [if_pos hv] at h'
        exact Or.inl ⟨c, rfl, hv, value_assignment_some c a h'⟩
      · rw [if_neg hv] at h'
        by_cases ht : c.rule = Rule.type_assignment
        · rw [if_pos ht] at h'
          exact Or.inr ⟨c, rfl, ht, type_assignment_none c a h'⟩
        · rw [if_neg ht] at h'
          exact Except.noConfusion h'
    · rw [hc] at h
      exact Except.noConfusion (show (Except.error n.text : Except (List Char) Assignment) = .ok a from h)

/-- Claim C7 witness: the shape statement at a concrete type-assignment
node. -/
theorem C7_assignment_shape_witness :
    (∃ c, exC7Asn.children = [c] ∧ c.rule = Rule.value_assignment ∧
      ∃ v, ({ name := "foo".toList,
              a_type := "some_type".toList,
              value := none } : Assignment).value = some v) ∨
    (∃ c, exC7Asn.children = [c] ∧ c.rule = Rule.type_assignment ∧
      ({ name := "foo".toList,
         a_type := "some_type".toList,
         value := none } : Assignment).value = none) :=
  C7_assignment_shape exC7Asn
    { name := "foo".toList, a_type := "some_type".toList, value := none } rfl

/-- Claim C8: number decoding parses a digit span as an unsigned 64-bit
integer: a nonempty all-decimal-digit span succeeds with its decimal value
exactly when that value is below `2 ^ 64` and otherwise fails with an error
carrying the span; content with a non-digit (other than a leading `+`, which
the underlying integer parser tolerates) fails; the spec's examples hold. -/
theorem C8_number_decoding :
    (∀ s : List Char, s ≠ [] → (∀ c ∈ s, isDecimalDigit c = true) →
      (decimalValue s < 2 ^ 64 → number_string s = .ok (decimalValue s)) ∧
      (2 ^ 64 ≤ decimalValue s → number_string s = .error s)) ∧
    (∀ s : List Char, (∃ c ∈ s, charToDigit 10 c = none ∧ c ≠ '+') →
      number_string s = .error s) ∧
    number_string ("12345678".toList) = .ok 12345678 ∧
    number_string ("A1234".toList) = .error ("A1234".toList) := by
  refine ⟨?_, ?_, by rfl, by rfl⟩
  · intro s hne hdig
    have hall : ∀ c ∈ s, (charToDigit 10 c).isSome := by
      intro c hcmem
      rw [charToDigit_decimal c (hdig c hcmem)]
      rfl
    have hval : digitsValueFrom 10 0 s = decimalValue s := digitsValueFrom_decimal s 0 hdig
    constructor
    · intro hlt
      have hok := fromStrRadix_ok 10 (by norm_num) s hne hall (by rw [hval]; exact hlt)
      unfold number_string
      rw [hok, hval]
    · intro hge
      have herr := fromStrRadix_overflow 10 (by norm_num) s hne hall (by rw [hval]; exact hge)
      unfold number_string
      rw [herr]
  · intro s hbad
    unfold number_string
    rw [fromStrRadix_invalid 10 s hbad]

/-- Claim C8 witness: a 20-digit span overflows the 64-bit range and fails
with the span as error payload. -/
theorem C8_number_decoding_witness :
    number_string ("99999999999999999999".toList) = .error ("99999999999999999999".toList) :=
  (C8_number_decoding.1 ("99999999999999999999".toList) (by decide) (by decide)).2 (by decide)

/-- Claim C9: the parse entry point returns the same result whether the
prettyPrint option is true or false; the option only controls the diagnostic
dump of the generic parse tree, which is emitted exactly when the flag is set
and recognition succeeded. -/
theorem C9_pretty_print_no_effect :
    ∀ (recognize : List Char → Except (List Char) PNode) (text : List Char)
      (o1 o2 : ParseOptions),
      (parse_mib recognize text o1).fst = (parse_mib recognize text o2).fst ∧
      (parse_mib recognize text { pretty_print := false }).snd = [] ∧
      (parse_mib recognize text { pretty_print := true }).snd =
        (match recognize text with
         | .ok n => print_node n
         | .error _ => []) := by
  intro recognize text o1 o2
  refine ⟨?_, ?_, ?_⟩ <;> unfold parse_mib <;> cases recognize text <;> simp

end MibP
